import Mathlib

/-!
# Verification of the research-dashboard job-orchestration core

Shallow embedding of the Go sources of `jamesprial/research-dashboard`:
the stream parser (`internal/parser`), the job store (`internal/jobstore`),
the subprocess runner (`internal/runner`), the environment filter
(`internal/envutil`) and the HTTP handlers that mutate job state
(`internal/server`).  Each Lean definition mirrors one Go function; Go maps
are modelled as association lists or `Finset`s, Go `int`/`int64` as `Int`
or `Nat` (no overflow is reachable in any modelled quantity), and the JSON
decoding boundary (`json.Unmarshal` into `map[string]any`) is modelled by
an explicit decoded-value type.
-/

namespace ResearchDashboard

/-- A decoded JSON value, the model of Go's `any` after
`encoding/json.Unmarshal`.  Numbers are irrelevant to every verified claim
and are carried as an `Int` mantissa-free approximation. -/
inductive JVal where
  | null : JVal
  | bool (b : Bool) : JVal
  | num (n : Int) : JVal
  | str (s : String) : JVal
  | arr (elems : List JVal) : JVal
  | obj (fields : List (String × JVal)) : JVal

/-- A decoded JSON object: model of Go's `map[string]any` (association list,
first binding wins on lookup). -/
abbrev JObj := List (String × JVal)

/-- Key lookup in a decoded object, the model of `m[key]` on a Go map. -/
def lookupKey (m : JObj) (key : String) : Option JVal :=
  (m.find? (fun kv => kv.1 = key)).map (·.2)

/-- Go `stringVal`: retrieve a string value from a map by key;
`("", false)` if absent or not a string. -/
def stringVal (m : JObj) (key : String) : String × Bool :=
  match lookupKey m key with
  | some (JVal.str s) => (s, true)
  | some _ => ("", false)
  | none => ("", false)

/-- Go `boolVal`: retrieve a bool value from a map by key;
`(false, false)` if absent or not a bool. -/
def boolVal (m : JObj) (key : String) : Bool × Bool :=
  match lookupKey m key with
  | some (JVal.bool b) => (b, true)
  | some _ => (false, false)
  | none => (false, false)

/-! ## Domain enums (`internal/model`) -/

/-- Go `model.Status`: lifecycle state of a research job. -/
inductive Status where
  | pending
  | running
  | completed
  | failed
  | cancelled
  deriving DecidableEq, Repr

/-- Go `model.EventType`. -/
inductive EventType where
  | system
  | assistant
  | user
  | result
  | raw
  deriving DecidableEq, Repr

/-- Go `model.EventSubtype` (`empty` models the `""` subtype). -/
inductive EventSubtype where
  | empty
  | text
  | toolUse
  | toolResult
  | textDelta
  | toolStart
  deriving DecidableEq, Repr

/-- Go `model.ParsedEvent`.  Field defaults model Go zero values, so a Lean
structure literal mentioning only some fields matches the corresponding Go
composite literal. -/
structure ParsedEvent where
  index : Nat := 0
  type : EventType := EventType.raw
  subtype : EventSubtype := EventSubtype.empty
  text : String := ""
  toolName : String := ""
  toolInput : Option JObj := none
  toolResult : String := ""
  isError : Bool := false
  raw : Option JObj := none

/-! ## Event parser (`internal/parser`)

`ParseStreamLine` receives a raw line, trims it and runs
`json.Unmarshal` into a `map[string]any`.  That decoding boundary is
modelled by `LineInput`: the four mutually exclusive outcomes of
trim-then-decode.  Everything downstream of the decode is translated
directly. -/

/-- The outcome of `strings.TrimSpace` + `json.Unmarshal` on one line of
subprocess output. -/
inductive LineInput where
  /-- The trimmed line was empty (empty or whitespace-only input). -/
  | blank
  /-- `json.Unmarshal` failed; carries the trimmed original text. -/
  | undecodable (trimmed : String)
  /-- The line was the JSON literal `null` (decodes to a nil map). -/
  | nullValue
  /-- The line decoded to a JSON object. -/
  | object (data : JObj)

/-- Go `emit`: stamp the event with the next counter value and advance the
counter (`evt.Index = int(counter.Add(1) - 1)`). -/
def emit (c : Nat) (evt : ParsedEvent) : ParsedEvent × Nat :=
  ({ evt with index := c }, c + 1)

/-- Go `extractContentBlocks`: navigate `data["message"]["content"]` and
return the block list, or `none` when the path does not exist. -/
def extractContentBlocks (data : JObj) : Option (List JVal) :=
  match lookupKey data "message" with
  | some (JVal.obj message) =>
    match lookupKey message "content" with
    | some (JVal.arr content) => some content
    | _ => none
  | _ => none

/-- Go `extractToolResultContent`: resolve the `content` field of a
`tool_result` block — a plain string is returned directly; a list of
`{type:"text",text:...}` items is joined with newlines. -/
def extractToolResultContent (block : JObj) : String :=
  match lookupKey block "content" with
  | some (JVal.str s) => s
  | some (JVal.arr list) =>
    let parts := list.filterMap (fun item =>
      match item with
      | JVal.obj itemMap =>
        if (stringVal itemMap "type").1 = "text" then
          match lookupKey itemMap "text" with
          | some (JVal.str text) => some text
          | _ => none
        else none
      | _ => none)
    String.intercalate "\n" parts
  | some _ => ""
  | none => ""

/-- Go `extractResultText`: the `result` field may be a string or a map
with a `text` key. -/
def extractResultText (data : JObj) : String :=
  match lookupKey data "result" with
  | some (JVal.str s) => s
  | some (JVal.obj m) =>
    match lookupKey m "text" with
    | some (JVal.str text) => text
    | _ => ""
  | _ => ""

/-- The per-block loop body of Go `parseAssistantBlocks`: recognised
`text` / `tool_use` blocks each emit one event; other blocks are skipped. -/
def assistantBlockEvents : List JVal → Nat → List ParsedEvent × Nat
  | [], c => ([], c)
  | b :: rest, c =>
    match b with
    | JVal.obj block =>
      if (stringVal block "type").1 = "text" then
        let (e, c₁) := emit c { type := EventType.assistant, subtype := EventSubtype.text,
                                text := (stringVal block "text").1 }
        let (es, c₂) := assistantBlockEvents rest c₁
        (e :: es, c₂)
      else if (stringVal block "type").1 = "tool_use" then
        let toolInput : Option JObj :=
          match lookupKey block "input" with
          | some (JVal.obj m) => some m
          | _ => none
        let (e, c₁) := emit c { type := EventType.assistant, subtype := EventSubtype.toolUse,
                                toolName := (stringVal block "name").1, toolInput := toolInput }
        let (es, c₂) := assistantBlockEvents rest c₁
        (e :: es, c₂)
      else assistantBlockEvents rest c
    | _ => assistantBlockEvents rest c

/-- Go `parseAssistantBlocks`. -/
def parseAssistantBlocks (data : JObj) (c : Nat) : List ParsedEvent × Nat :=
  let blocks := (extractContentBlocks data).getD []
  if blocks.isEmpty then
    let (e, c₁) := emit c { type := EventType.assistant }
    ([e], c₁)
  else
    let (events, c₁) := assistantBlockEvents blocks c
    if events.isEmpty then
      let (e, c₂) := emit c₁ { type := EventType.assistant }
      ([e], c₂)
    else
      (events, c₁)

/-- The per-block loop body of Go `parseUserBlocks`: only `tool_result`
blocks produce events. -/
def userBlockEvents : List JVal → Nat → List ParsedEvent × Nat
  | [], c => ([], c)
  | b :: rest, c =>
    match b with
    | JVal.obj block =>
      if (stringVal block "type").1 = "tool_result" then
        let (e, c₁) := emit c { type := EventType.user, subtype := EventSubtype.toolResult,
                                toolResult := extractToolResultContent block,
                                isError := (boolVal block "is_error").1 }
        let (es, c₂) := userBlockEvents rest c₁
        (e :: es, c₂)
      else
        userBlockEvents rest c
    | _ => userBlockEvents rest c

/-- Go `parseUserBlocks`. -/
def parseUserBlocks (data : JObj) (c : Nat) : List ParsedEvent × Nat :=
  let blocks := (extractContentBlocks data).getD []
  if blocks.isEmpty then
    let (e, c₁) := emit c { type := EventType.user }
    ([e], c₁)
  else
    let (events, c₁) := userBlockEvents blocks c
    if events.isEmpty then
      let (e, c₂) := emit c₁ { type := EventType.user }
      ([e], c₂)
    else
      (events, c₁)

/-- Go `parseResult`. -/
def parseResult (data : JObj) (c : Nat) : List ParsedEvent × Nat :=
  let (e, c₁) := emit c { type := EventType.result, text := extractResultText data,
                          isError := (boolVal data "is_error").1, raw := some data }
  ([e], c₁)

/-- Go `parseStreamEvent`: the inner `event.type` discriminates; `ping`
and `message_stop` (and every unrecognised inner type) are filtered. -/
def parseStreamEvent (data : JObj) (c : Nat) : List ParsedEvent × Nat :=
  match lookupKey data "event" with
  | some (JVal.obj event) =>
    if (stringVal event "type").1 = "ping" ∨ (stringVal event "type").1 = "message_stop" then
      ([], c)
    else if (stringVal event "type").1 = "content_block_delta" then
      match lookupKey event "delta" with
      | some (JVal.obj delta) =>
        if (stringVal delta "type").1 = "text_delta" then
          let (e, c₁) := emit c { type := EventType.assistant, subtype := EventSubtype.textDelta,
                                  text := (stringVal delta "text").1 }
          ([e], c₁)
        else ([], c)
      | _ => ([], c)
    else if (stringVal event "type").1 = "content_block_start" then
      match lookupKey event "content_block" with
      | some (JVal.obj block) =>
        if (stringVal block "type").1 = "tool_use" then
          let (e, c₁) := emit c { type := EventType.assistant, subtype := EventSubtype.toolStart,
                                  toolName := (stringVal block "name").1 }
          ([e], c₁)
        else ([], c)
      | _ => ([], c)
    else ([], c)
  | _ => ([], c)

/-- Go `ParseStreamLine`, downstream of the trim/decode boundary encoded by
`LineInput`.  The shared atomic counter is threaded explicitly. -/
def parseStreamLine (input : LineInput) (c : Nat) : List ParsedEvent × Nat :=
  match input with
  | LineInput.blank => ([], c)
  | LineInput.undecodable trimmed =>
    let (e, c₁) := emit c { type := EventType.raw, text := trimmed }
    ([e], c₁)
  | LineInput.nullValue =>
    let (e, c₁) := emit c { type := EventType.raw }
    ([e], c₁)
  | LineInput.object data =>
    if (stringVal data "type").1 = "system" then
      let subtype₀ := (stringVal data "subtype").1
      let subtype := if subtype₀ = "" then "init" else subtype₀
      let (e, c₁) := emit c { type := EventType.system, text := subtype, raw := some data }
      ([e], c₁)
    else if (stringVal data "type").1 = "assistant" then parseAssistantBlocks data c
    else if (stringVal data "type").1 = "user" then parseUserBlocks data c
    else if (stringVal data "type").1 = "result" then parseResult data c
    else if (stringVal data "type").1 = "stream_event" then parseStreamEvent data c
    else
      -- Missing/non-string `type` (`""` after `stringVal`) and unrecognised
      -- values both yield one `raw` passthrough event.
      let (e, c₁) := emit c { type := EventType.raw, raw := some data }
      ([e], c₁)

/-- A whole stream: `ParseStreamLine` applied to each line in order with
one shared counter (the runner's read loop, stripped of job side effects). -/
def parseLines : List LineInput → Nat → List ParsedEvent × Nat
  | [], c => ([], c)
  | l :: rest, c =>
    let (evts, c₁) := parseStreamLine l c
    let (more, c₂) := parseLines rest c₁
    (evts ++ more, c₂)

/-! ## Job record and store (`internal/jobstore`)

The Go `Job` is a mutex-guarded record; its synchronized accessors are
modelled as pure state-passing functions on `JobState`.  The Go
`map[string]struct{}` of claimed directories is a `Finset String`; the
`map[string]*Job` registry is an association list. -/

/-- The mutable fields of the Go `jobstore.Job` (sans `resultInfo`, which
no verified claim mentions).  Field defaults model Go zero values;
`outputDir`/`errMsg`/`sessionID` use `""` for "unset" exactly as Go does. -/
structure JobState where
  id : String := ""
  query : String := ""
  model : String := ""
  maxTurns : Int := 0
  cwd : String := ""
  status : Status := Status.pending
  createdAt : Nat := 0
  events : List ParsedEvent := []
  outputDir : String := ""
  errMsg : String := ""
  sessionID : String := ""

/-- Go `Job.EventsSince`: clamp a negative cursor to 0, return the empty
slice when the cursor is at or past the log length, otherwise a copy of
the suffix starting at the cursor. -/
def eventsSince (events : List ParsedEvent) (cursor : Int) : List ParsedEvent :=
  let c := if cursor < 0 then 0 else cursor
  if (events.length : Int) ≤ c then []
  else events.drop c.toNat

/-- Go terminal-status test (`completed`/`failed`/`cancelled`), as used in
`CleanupExpired` and the stream handler's loop. -/
def isTerminalStatus (s : Status) : Bool :=
  s = Status.completed || s = Status.failed || s = Status.cancelled

/-- Go `Store.ClaimDir`: atomic test-and-set on the claimed-directory set.
Returns whether the claim succeeded together with the new set. -/
def claimDir (claimed : Finset String) (dir : String) : Bool × Finset String :=
  if dir ∈ claimed then (false, claimed)
  else (true, insert dir claimed)

/-- Go `Store.ReleaseDir`: remove a path from the claimed-directory set. -/
def releaseDir (claimed : Finset String) (dir : String) : Finset String :=
  claimed.erase dir

/-- The store registry state: job map plus the claimed-directory ledger. -/
structure StoreState where
  jobs : List (String × JobState) := []
  claimedDirs : Finset String := ∅

/-- Go `Store.Create`: construct a pending job with the given parameters
and register it under `id` (`now` models `time.Now().UTC()`). -/
def storeCreate (st : StoreState) (id query mdl : String) (maxTurns : Int)
    (cwd : String) (now : Nat) : StoreState × JobState :=
  let j : JobState := { id := id, query := query, model := mdl, maxTurns := maxTurns,
                        cwd := cwd, status := Status.pending, createdAt := now, events := [] }
  ({ st with jobs := (id, j) :: st.jobs }, j)

/-- Go `Store.CleanupExpired`: remove terminal jobs older than `maxAge`;
pending/running jobs are kept regardless of age. -/
def cleanupExpired (st : StoreState) (now maxAge : Nat) : StoreState :=
  { st with jobs := st.jobs.filter (fun p =>
      !(isTerminalStatus p.2.status && decide (maxAge < now - p.2.createdAt))) }

/-! ## Request validation and job submission (`internal/model`,
`internal/server`) -/

/-- Go `model.ValidModel`: case-sensitive membership in
`{opus, sonnet, haiku}`. -/
def validModel (name : String) : Bool :=
  name = "opus" || name = "sonnet" || name = "haiku"

/-- Go `model.ResearchRequest` (after JSON decoding with defaults applied). -/
structure ResearchRequest where
  query : String := ""
  model : String := "opus"
  maxTurns : Int := 100
  cwd : Option String := none

/-- Go `ResearchRequest.Validate`: `none` means valid, `some msg` carries
the rejection message, tested in the source's order. -/
def validate (r : ResearchRequest) : Option String :=
  if r.query = "" then some "query is required"
  else if !validModel r.model then some ("invalid model: \"" ++ r.model ++ "\"")
  else if r.maxTurns ≤ 0 then some "max_turns must be positive"
  else none

/-- Go `Server.handleStartResearch`, restricted to its effect on the store:
a request failing `Validate` is rejected before anything runs; a valid one
first sweeps expired jobs, then creates the job under a fresh `id`.
Returns the new store and the created job's id (`none` on rejection). -/
def handleStartResearch (st : StoreState) (req : ResearchRequest)
    (now maxAge : Nat) (id serverCwd : String) : StoreState × Option String :=
  match validate req with
  | some _ => (st, none)
  | none =>
    let st₁ := cleanupExpired st now maxAge
    let cwd := (req.cwd).getD serverCwd
    let (st₂, _) := storeCreate st₁ id req.query req.model req.maxTurns cwd now
    (st₂, some id)

/-! ## Subprocess runner (`internal/runner`)

`researchDirs` is a filesystem read; its two invocations are modelled as
the pre-run and post-run snapshots handed to the post-exit phase as
association lists from absolute path to modification time (`Nat`).
`Run`'s read loop is `parseLines` plus the result-event scan; the
post-`Wait` phase is `runFinalize`. -/

/-- Go `strings.TrimSpace`, modelled over the character list so that it
is kernel-computable. -/
def goTrimSpace (s : String) : String :=
  String.mk (((s.data.dropWhile Char.isWhitespace).reverse.dropWhile Char.isWhitespace).reverse)

/-- Modification-time lookup in a directory snapshot
(Go `pre[path]` / `post[path]`). -/
def lookupMtime (snap : List (String × Nat)) (path : String) : Option Nat :=
  (snap.find? (fun kv => kv.1 = path)).map (·.2)

/-- The candidate list of Go `detectNewOutputDir`: directories present in
the post-run snapshot but absent from the pre-run snapshot. -/
def newCandidates (pre post : List (String × Nat)) : List (String × Nat) :=
  post.filter (fun kv => lookupMtime pre kv.1 = none)

/-- Go `sort.Slice(candidates, …After…)`: order candidates by modification
time, most recent first. -/
def sortByMtimeDesc (candidates : List (String × Nat)) : List (String × Nat) :=
  candidates.insertionSort (fun a b => b.2 ≤ a.2)

/-- The claim loop of Go `detectNewOutputDir`: claim the first candidate
whose `ClaimDir` succeeds; `""` when every claim fails. -/
def claimFirst : List (String × Nat) → Finset String → String × Finset String
  | [], claimed => ("", claimed)
  | kv :: rest, claimed =>
    let (ok, claimed₁) := claimDir claimed kv.1
    if ok then (kv.1, claimed₁)
    else claimFirst rest claimed₁

/-- Go `detectNewOutputDir`: diff the snapshots, sort newest-first, claim
the first unclaimed candidate. -/
def detectNewOutputDir (pre post : List (String × Nat)) (claimed : Finset String) :
    String × Finset String :=
  claimFirst (sortByMtimeDesc (newCandidates pre post)) claimed

/-- The result-event scan of `Run`'s read loop: `gotResult` becomes true on
any result event, `resultIsError` tracks the most recent result event's
error flag. -/
def scanResults (evts : List ParsedEvent) : Bool × Bool :=
  evts.foldl (fun acc e =>
    if e.type = EventType.result then (true, e.isError) else acc) (false, false)

/-- The post-`cmd.Wait()` phase of Go `Runner.Run`: if the job was
cancelled externally, return with the job and claim ledger untouched;
otherwise detect and claim a new output directory, then set the final
status, falling back to trimmed stderr or a generic exit-code message on
failure.  `exitCode` is the reconciled exit status (−1 for non-exit
errors). -/
def runFinalize (j : JobState) (claimed : Finset String) (exitCode : Int)
    (gotResult resultIsError : Bool) (stderr : String)
    (pre post : List (String × Nat)) : JobState × Finset String :=
  if j.status = Status.cancelled then (j, claimed)
  else
    let (newDir, claimed₁) := detectNewOutputDir pre post claimed
    let j₁ := if newDir ≠ "" then { j with outputDir := newDir } else j
    if exitCode = 0 ∨ (gotResult ∧ resultIsError = false) then
      ({ j₁ with status := Status.completed }, claimed₁)
    else
      let trimmed := goTrimSpace stderr
      let errMsg := if trimmed = "" then s!"subprocess exited with code {exitCode}" else trimmed
      ({ j₁ with status := Status.failed, errMsg := errMsg }, claimed₁)

/-- `Runner.Run` from the read loop onwards, as observed at the job: the
stream's parsed events are appended to the job's log, the result scan runs
over them, and the post-exit phase finalizes.  The job's `status` field at
entry to `runFinalize` is the status observed after `cmd.Wait()` (which an
asynchronous cancellation may have set to `cancelled`). -/
def runAfterStart (j : JobState) (claimed : Finset String) (inputs : List LineInput)
    (exitCode : Int) (stderr : String) (pre post : List (String × Nat)) :
    JobState × Finset String :=
  let evts := (parseLines inputs 0).1
  let j₁ := { j with events := j.events ++ evts }
  let (gotResult, resultIsError) := scanResults evts
  runFinalize j₁ claimed exitCode gotResult resultIsError stderr pre post

/-! ## Job status transition system

The operations that write a job's `status` field in the source:
`Runner.Run`'s initial `SetStatus(running)`, the cancel handler's
`SetStatus(cancelled)` (`Server.handleCancelResearch`), and the status
write of `Run`'s post-exit phase. -/

/-- A status-mutating operation. -/
inductive JobOp where
  /-- `Runner.Run` line 1: `job.SetStatus(model.StatusRunning)`. -/
  | runnerStart
  /-- `Server.handleCancelResearch`: `job.SetStatus(model.StatusCancelled)`. -/
  | cancelRequest
  /-- The post-`Wait` status write of `Runner.Run`, parametrised by the
  reconciled exit code and the result-event scan. -/
  | runnerFinish (exitCode : Int) (gotResult resultIsError : Bool)

/-- The effect of one operation on the status field, read off the source. -/
def stepStatus (s : Status) (op : JobOp) : Status :=
  match op with
  | JobOp.runnerStart => Status.running
  | JobOp.cancelRequest => Status.cancelled
  | JobOp.runnerFinish exitCode gotResult resultIsError =>
    if s = Status.cancelled then s
    else if exitCode = 0 ∨ (gotResult ∧ resultIsError = false) then Status.completed
    else Status.failed

/-- The status after a sequence of operations on a fresh (pending) job. -/
def runStatus (ops : List JobOp) : Status :=
  ops.foldl stepStatus Status.pending

/-! ## Streaming delivery (`internal/server`, `handleStreamResearch`)

Each tick of the 300 ms poll loop observes the job's current event log,
status and output directory; the concurrent evolution of the job is
modelled by the list of snapshots the successive polls observe.  An
exhausted snapshot list models context cancellation (server shutdown or
client disconnect), which ends the loop with no further messages. -/

/-- What one poll of the loop reads from the job record. -/
structure Snapshot where
  events : List ParsedEvent := []
  status : Status := Status.pending
  outputDir : String := ""

/-- A message written to the SSE stream: an event frame or the final
`done` sentinel carrying terminal status and output directory. -/
inductive Msg where
  | event (e : ParsedEvent)
  | done (status : Status) (outputDir : String)

/-- Go `handleStreamResearch`'s poll loop: forward `EventsSince(cursor)`,
advance the cursor by the number forwarded, then if the observed status is
terminal emit the `done` sentinel and stop. -/
def streamLoop : List Snapshot → Int → List Msg
  | [], _ => []
  | snap :: rest, cursor =>
    let evts := eventsSince snap.events cursor
    let msgs := evts.map Msg.event
    let cursor₁ := cursor + evts.length
    if isTerminalStatus snap.status then
      msgs ++ [Msg.done snap.status snap.outputDir]
    else
      msgs ++ streamLoop rest cursor₁

/-! ## Environment filtering (`internal/envutil`)

The ambient environment is an explicit association list from key to value
(`os.Environ` in `KEY=VALUE` order, split at the first `=`). -/

/-- Go `strings.HasPrefix` (case-sensitive byte prefix), modelled over
the character list so that it is kernel-computable. -/
def goHasPrefix (p s : String) : Bool :=
  p.data.isPrefixOf s.data

/-- Go `os.Getenv` over the modelled environment: value of the first
matching entry, `""` when unset. -/
def getenv (env : List (String × String)) (key : String) : String :=
  ((env.find? (fun kv => kv.1 = key)).map (·.2)).getD ""

/-- Go `envutil.ResolvedAPIKey`: `MAX_API_KEY` takes priority over
`ANTHROPIC_API_KEY`; `""` when neither is set. -/
def resolvedAPIKey (env : List (String × String)) : String :=
  let maxKey := getenv env "MAX_API_KEY"
  if maxKey ≠ "" then maxKey else getenv env "ANTHROPIC_API_KEY"

/-- Go `envutil.FilteredEnv`: drop every `CLAUDE`-prefixed key and both
raw credential keys, then append the single resolved credential entry when
it is non-empty. -/
def filteredEnv (env : List (String × String)) : List (String × String) :=
  let base := env.filter (fun kv =>
    !(goHasPrefix "CLAUDE" kv.1) && kv.1 ≠ "MAX_API_KEY" && kv.1 ≠ "ANTHROPIC_API_KEY")
  let apiKey := resolvedAPIKey env
  if apiKey ≠ "" then base ++ [("ANTHROPIC_API_KEY", apiKey)] else base

/-! ## Parser index bookkeeping

Every parser entry point advances the shared counter by exactly the number
of events it emits, and stamps those events with consecutive indices
starting at the counter's entry value. -/

/-- Index/counter bookkeeping for the assistant-block loop. -/
lemma assistantBlockEvents_spec :
    ∀ (blocks : List JVal) (c : Nat) (es : List ParsedEvent) (c' : Nat),
      assistantBlockEvents blocks c = (es, c') →
      c' = c + es.length ∧ es.map (fun e => e.index) = List.range' c es.length := by
  intro blocks
  induction blocks with
  | nil =>
    intro c es c' h
    simp only [assistantBlockEvents] at h
    cases h
    simp
  | cons b rest ih =>
    intro c es c' h
    cases b with
    | obj block =>
      rcases hrec : assistantBlockEvents rest (c + 1) with ⟨es₁, c₂⟩
      by_cases h1 : (stringVal block "type").1 = "text"
      · obtain ⟨ihc, ihm⟩ := ih (c + 1) es₁ c₂ hrec
        simp only [assistantBlockEvents, h1, if_true, emit, hrec] at h
        cases h
        refine ⟨by simp [ihc]; omega, ?_⟩
        simp [List.range'_succ, ihm]
      · by_cases h2 : (stringVal block "type").1 = "tool_use"
        · obtain ⟨ihc, ihm⟩ := ih (c + 1) es₁ c₂ hrec
          simp only [assistantBlockEvents, h1, h2, if_false, if_true, emit, hrec] at h
          cases h
          refine ⟨by simp [ihc]; omega, ?_⟩
          simp [List.range'_succ, ihm]
        · simp only [assistantBlockEvents, h1, h2, if_false] at h
          exact ih c es c' h
    | null => simp only [assistantBlockEvents] at h; exact ih c es c' h
    | bool _ => simp only [assistantBlockEvents] at h; exact ih c es c' h
    | num _ => simp only [assistantBlockEvents] at h; exact ih c es c' h
    | str _ => simp only [assistantBlockEvents] at h; exact ih c es c' h
    | arr _ => simp only [assistantBlockEvents] at h; exact ih c es c' h

/-- Index/counter bookkeeping for the user-block loop. -/
lemma userBlockEvents_spec :
    ∀ (blocks : List JVal) (c : Nat) (es : List ParsedEvent) (c' : Nat),
      userBlockEvents blocks c = (es, c') →
      c' = c + es.length ∧ es.map (fun e => e.index) = List.range' c es.length := by
  intro blocks
  induction blocks with
  | nil =>
    intro c es c' h
    simp only [userBlockEvents] at h
    cases h
    simp
  | cons b rest ih =>
    intro c es c' h
    cases b with
    | obj block =>
      rcases hrec : userBlockEvents rest (c + 1) with ⟨es₁, c₂⟩
      by_cases h1 : (stringVal block "type").1 = "tool_result"
      · obtain ⟨ihc, ihm⟩ := ih (c + 1) es₁ c₂ hrec
        simp only [userBlockEvents, h1, if_true, emit, hrec] at h
        cases h
        refine ⟨by simp [ihc]; omega, ?_⟩
        simp [List.range'_succ, ihm]
      · simp only [userBlockEvents, h1, if_false] at h
        exact ih c es c' h
    | null => simp only [userBlockEvents] at h; exact ih c es c' h
    | bool _ => simp only [userBlockEvents] at h; exact ih c es c' h
    | num _ => simp only [userBlockEvents] at h; exact ih c es c' h
    | str _ => simp only [userBlockEvents] at h; exact ih c es c' h
    | arr _ => simp only [userBlockEvents] at h; exact ih c es c' h

/-- Index/counter bookkeeping for `parseAssistantBlocks`. -/
lemma parseAssistantBlocks_spec (data : JObj) (c : Nat) :
    (parseAssistantBlocks data c).2 = c + (parseAssistantBlocks data c).1.length ∧
    (parseAssistantBlocks data c).1.map (fun e => e.index) =
      List.range' c (parseAssistantBlocks data c).1.length := by
  unfold parseAssistantBlocks
  rcases hrec : assistantBlockEvents ((extractContentBlocks data).getD []) c with ⟨es₁, c₁⟩
  obtain ⟨ihc, ihm⟩ := assistantBlockEvents_spec _ c es₁ c₁ hrec
  dsimp only
  rw [hrec]
  split_ifs with hb he
  · simp [emit, List.range'_succ]
  · have : es₁ = [] := by simpa using he
    subst this
    simp at ihc
    simp [emit, ihc, List.range'_succ]
  · simpa using ⟨ihc, ihm⟩

/-- Index/counter bookkeeping for `parseUserBlocks`. -/
lemma parseUserBlocks_spec (data : JObj) (c : Nat) :
    (parseUserBlocks data c).2 = c + (parseUserBlocks data c).1.length ∧
    (parseUserBlocks data c).1.map (fun e => e.index) =
      List.range' c (parseUserBlocks data c).1.length := by
  unfold parseUserBlocks
  rcases hrec : userBlockEvents ((extractContentBlocks data).getD []) c with ⟨es₁, c₁⟩
  obtain ⟨ihc, ihm⟩ := userBlockEvents_spec _ c es₁ c₁ hrec
  dsimp only
  rw [hrec]
  split_ifs with hb he
  · simp [emit, List.range'_succ]
  · have : es₁ = [] := by simpa using he
    subst this
    simp at ihc
    simp [emit, ihc, List.range'_succ]
  · simpa using ⟨ihc, ihm⟩

/-- Index/counter bookkeeping for `parseStreamEvent`. -/
lemma parseStreamEvent_spec (data : JObj) (c : Nat) :
    (parseStreamEvent data c).2 = c + (parseStreamEvent data c).1.length ∧
    (parseStreamEvent data c).1.map (fun e => e.index) =
      List.range' c (parseStreamEvent data c).1.length := by
  unfold parseStreamEvent
  dsimp only [emit]
  repeat' first
  | split_ifs
  | split
  all_goals simp [List.range'_succ]

/-- Index/counter bookkeeping for `parseStreamLine`: every call advances
the shared counter by exactly the number of events it emits and stamps
those events with consecutive indices starting at the entry counter. -/
lemma parseStreamLine_spec (input : LineInput) (c : Nat) :
    (parseStreamLine input c).2 = c + (parseStreamLine input c).1.length ∧
    (parseStreamLine input c).1.map (fun e => e.index) =
      List.range' c (parseStreamLine input c).1.length := by
  cases input with
  | blank => simp [parseStreamLine]
  | undecodable trimmed => simp [parseStreamLine, emit, List.range'_succ]
  | nullValue => simp [parseStreamLine, emit, List.range'_succ]
  | object data =>
    simp only [parseStreamLine]
    split_ifs
    · simp [emit, List.range'_succ]
    · simp [emit, List.range'_succ]
    · exact parseAssistantBlocks_spec data c
    · exact parseUserBlocks_spec data c
    · simp [parseResult, emit, List.range'_succ]
    · exact parseStreamEvent_spec data c
    · simp [emit, List.range'_succ]

/-- Index/counter bookkeeping for a whole stream of lines. -/
lemma parseLines_spec (inputs : List LineInput) : ∀ (c : Nat),
    (parseLines inputs c).2 = c + (parseLines inputs c).1.length ∧
    (parseLines inputs c).1.map (fun e => e.index) =
      List.range' c (parseLines inputs c).1.length := by
  induction inputs with
  | nil => intro c; simp [parseLines]
  | cons l rest ih =>
    intro c
    unfold parseLines
    obtain ⟨hc₁, hm₁⟩ := parseStreamLine_spec l c
    rcases h₁ : parseStreamLine l c with ⟨evts, c₁⟩
    rw [h₁] at hc₁ hm₁
    obtain ⟨hc₂, hm₂⟩ := ih c₁
    rcases h₂ : parseLines rest c₁ with ⟨more, c₂⟩
    rw [h₂] at hc₂ hm₂
    dsimp only at hc₁ hm₁ hc₂ hm₂ ⊢
    rw [h₂]
    dsimp only
    constructor
    · rw [List.length_append]; omega
    · rw [List.map_append, hm₁, hm₂, hc₁, List.length_append]
      have happ := List.range'_append c evts.length more.length 1
      simp only [one_mul] at happ
      rw [happ]
      congr 1
      omega

/-! ## Claim theorems -/

/-- **C3.**  For every sequence of `ParseStreamLine` calls sharing one
counter that starts at 0, the indices of all emitted events, in emission
order, are exactly 0, 1, 2, … with no gaps or repeats; calls on filtered
inputs (empty or whitespace-only lines, `stream_event` lines whose inner
event type is `ping` or `message_stop`, and any other filtered inner
stream-event type) emit no events and leave the counter unchanged. -/
theorem claim_C3_parser_indices_dense (inputs : List LineInput) :
    ((parseLines inputs 0).1.map (fun e => e.index) =
      List.range (parseLines inputs 0).1.length) ∧
    (∀ c, parseStreamLine LineInput.blank c = ([], c)) ∧
    (∀ c data event, lookupKey data "type" = some (JVal.str "stream_event") →
      lookupKey data "event" = some (JVal.obj event) →
      ((stringVal event "type").1 = "ping" ∨ (stringVal event "type").1 = "message_stop") →
      parseStreamLine (LineInput.object data) c = ([], c)) ∧
    (∀ c data event, lookupKey data "type" = some (JVal.str "stream_event") →
      lookupKey data "event" = some (JVal.obj event) →
      (stringVal event "type").1 ≠ "ping" → (stringVal event "type").1 ≠ "message_stop" →
      (stringVal event "type").1 ≠ "content_block_delta" →
      (stringVal event "type").1 ≠ "content_block_start" →
      parseStreamLine (LineInput.object data) c = ([], c)) := by
  refine ⟨?_, ?_, ?_, ?_⟩
  · obtain ⟨_, hm⟩ := parseLines_spec inputs 0
    rw [hm, List.range_eq_range']
  · intro c
    simp [parseStreamLine]
  · intro c data event hType hEvent hInner
    have hTv : (stringVal data "type").1 = "stream_event" := by simp [stringVal, hType]
    have hstep : parseStreamLine (LineInput.object data) c = parseStreamEvent data c := by
      simp only [parseStreamLine]
      rw [hTv]
      simp
    rw [hstep]
    simp only [parseStreamEvent, hEvent]
    rw [if_pos hInner]
  · intro c data event hType hEvent hPing hStop hDelta hStart
    have hTv : (stringVal data "type").1 = "stream_event" := by simp [stringVal, hType]
    have hstep : parseStreamLine (LineInput.object data) c = parseStreamEvent data c := by
      simp only [parseStreamLine]
      rw [hTv]
      simp
    rw [hstep]
    simp only [parseStreamEvent, hEvent]
    rw [if_neg (not_or.mpr ⟨hPing, hStop⟩), if_neg hDelta, if_neg hStart]

/-- Witness for C3 at concrete inputs: a mixed stream gets dense indices
and a `ping` stream event is filtered with the counter untouched. -/
theorem claim_C3_parser_indices_dense_witness :
    parseStreamLine (LineInput.object
      [("type", JVal.str "stream_event"),
       ("event", JVal.obj [("type", JVal.str "ping")])]) 7 = ([], 7) :=
  (claim_C3_parser_indices_dense []).2.2.1 7
    [("type", JVal.str "stream_event"), ("event", JVal.obj [("type", JVal.str "ping")])]
    [("type", JVal.str "ping")] rfl rfl (Or.inl rfl)

/-- **C5.**  `ClaimDir`/`ReleaseDir` form an atomic test-and-set over a
path set: claiming an unclaimed path succeeds and adds it; claiming an
already-claimed path fails and leaves the set unchanged, so of two
successive claims of one path exactly the first succeeds; after a
release, a subsequent claim of the path succeeds again. -/
theorem claim_C5_claimDir_test_and_set (s : Finset String) (d : String) :
    (d ∉ s → claimDir s d = (true, insert d s)) ∧
    (d ∈ s → claimDir s d = (false, s)) ∧
    (d ∉ s → (claimDir s d).1 = true ∧ (claimDir (claimDir s d).2 d).1 = false) ∧
    (claimDir (releaseDir s d) d).1 = true := by
  refine ⟨?_, ?_, ?_, ?_⟩
  · intro h
    simp [claimDir, h]
  · intro h
    simp [claimDir, h]
  · intro h
    simp [claimDir, h]
  · simp [claimDir, releaseDir, Finset.not_mem_erase]

/-- Witness for C5 at a concrete path: first claim succeeds, second
fails, release makes the path claimable again. -/
theorem claim_C5_claimDir_test_and_set_witness :
    claimDir ∅ "research-x" = (true, insert "research-x" ∅) ∧
    (claimDir (claimDir ∅ "research-x").2 "research-x").1 = false ∧
    (claimDir (releaseDir (insert "research-x" ∅) "research-x") "research-x").1 = true := by
  refine ⟨(claim_C5_claimDir_test_and_set ∅ "research-x").1 (by simp),
    ((claim_C5_claimDir_test_and_set ∅ "research-x").2.2.1 (by simp)).2,
    (claim_C5_claimDir_test_and_set (insert "research-x" ∅) "research-x").2.2.2⟩

/-- **C6.**  `EventsSince(cursor)` returns the empty collection (never an
error) when the cursor is at or beyond the log length, the full log for a
negative cursor (clamped to 0), and otherwise exactly the events at
positions `cursor` through `n−1` in log order. -/
theorem claim_C6_eventsSince (events : List ParsedEvent) (cursor : Int) :
    ((events.length : Int) ≤ cursor → eventsSince events cursor = []) ∧
    (cursor < 0 → eventsSince events cursor = events) ∧
    (0 ≤ cursor → cursor < (events.length : Int) →
      eventsSince events cursor = events.drop cursor.toNat ∧
      ∀ i : Nat, (eventsSince events cursor).get? i = events.get? (cursor.toNat + i)) := by
  refine ⟨?_, ?_, ?_⟩
  · intro h
    simp only [eventsSince]
    split_ifs with h1 h2 <;> first | rfl | (exfalso; omega)
  · intro h
    simp only [eventsSince]
    rw [if_pos h]
    split_ifs with h2
    · have : events.length = 0 := by omega
      simp [List.length_eq_zero.mp this]
    · simp
  · intro h0 hlt
    simp only [eventsSince]
    rw [if_neg (by omega), if_neg (by omega)]
    exact ⟨rfl, fun i => List.get?_drop events cursor.toNat i⟩

/-- Witness for C6 at a concrete three-event log: cursor 3 yields the
empty list, cursor −2 yields all events, cursor 1 yields the suffix. -/
theorem claim_C6_eventsSince_witness :
    eventsSince [{ index := 0 }, { index := 1 }, { index := 2 }] 3 = [] ∧
    eventsSince [{ index := 0 }, { index := 1 }, { index := 2 }] (-2) =
      [{ index := 0 }, { index := 1 }, { index := 2 }] ∧
    eventsSince [{ index := 0 }, { index := 1 }, { index := 2 }] 1 =
      [{ index := 1 }, { index := 2 }] := by
  refine ⟨(claim_C6_eventsSince _ 3).1 (by norm_num),
    (claim_C6_eventsSince _ (-2)).2.1 (by norm_num), ?_⟩
  have h := (claim_C6_eventsSince [{ index := 0 }, { index := 1 }, { index := 2 }] 1).2.2
    (by norm_num) (by norm_num)
  rw [h.1]
  rfl

/-- **C7.**  A submission whose query is empty, whose model is not one of
the recognized identifiers, or whose turn budget is not positive is
rejected synchronously: no job record is created and the store is exactly
the same after the rejected submission as before it. -/
theorem claim_C7_invalid_request_rejected (st : StoreState) (req : ResearchRequest)
    (now maxAge : Nat) (id serverCwd : String)
    (h : req.query = "" ∨ validModel req.model = false ∨ req.maxTurns ≤ 0) :
    handleStartResearch st req now maxAge id serverCwd = (st, none) := by
  have hv : ∃ msg, validate req = some msg := by
    unfold validate
    rcases h with h | h | h
    · exact ⟨_, by rw [if_pos h]⟩
    · split_ifs with h1 h2 <;> simp_all
    · split_ifs with h1 h2 h3 <;> simp_all
  obtain ⟨msg, hmsg⟩ := hv
  unfold handleStartResearch
  rw [hmsg]

/-- Witness for C7: a turn budget of 0 (the spec's example) is rejected
with the store untouched. -/
theorem claim_C7_invalid_request_rejected_witness :
    handleStartResearch { jobs := [] } { query := "q", model := "opus", maxTurns := 0 }
      100 86400 "id-1" "/work" = ({ jobs := [] }, none) :=
  claim_C7_invalid_request_rejected { jobs := [] }
    { query := "q", model := "opus", maxTurns := 0 } 100 86400 "id-1" "/work"
    (Or.inr (Or.inr (by norm_num)))

/-- **C2 (counterexample).**  The claim says that once any terminal status
is set no operation ever changes the status again.  On the code this
fails: after the Runner finishes a job successfully (status `completed`,
terminal), a cancellation request (`handleCancelResearch`) still sets the
status to `cancelled` unconditionally. -/
theorem claim_C2_counterexample :
    runStatus [JobOp.runnerStart, JobOp.runnerFinish 0 false false] = Status.completed ∧
    isTerminalStatus Status.completed = true ∧
    runStatus [JobOp.runnerStart, JobOp.runnerFinish 0 false false, JobOp.cancelRequest] =
      Status.cancelled ∧
    Status.cancelled ≠ Status.completed := by
  refine ⟨?_, rfl, ?_, by decide⟩ <;> simp [runStatus, stepStatus]

/-- **C2 (amended).**  Job status transitions are exactly: the Runner's
start sets `running` from any state, a cancellation request sets
`cancelled` from any state (including overwriting a terminal `completed`
or `failed`), and the Runner's exit finalization sets `completed` or
`failed` only from a non-`cancelled` state — it never changes a
`cancelled` status.  In runs without cancellation requests the status
moves forward `pending → running → {completed|failed}`. -/
theorem claim_C2_amended_status_transitions (s : Status) (op : JobOp) :
    (stepStatus s op ≠ s →
      (op = JobOp.runnerStart ∧ stepStatus s op = Status.running) ∨
      (op = JobOp.cancelRequest ∧ stepStatus s op = Status.cancelled) ∨
      (s ≠ Status.cancelled ∧
        (∃ exitCode gotResult resultIsError,
          op = JobOp.runnerFinish exitCode gotResult resultIsError) ∧
        (stepStatus s op = Status.completed ∨ stepStatus s op = Status.failed))) ∧
    (∀ exitCode gotResult resultIsError,
      stepStatus Status.cancelled (JobOp.runnerFinish exitCode gotResult resultIsError) =
        Status.cancelled) ∧
    (runStatus [JobOp.runnerStart] = Status.running ∧
      ∀ exitCode gotResult resultIsError,
        runStatus [JobOp.runnerStart, JobOp.runnerFinish exitCode gotResult resultIsError] =
            Status.completed ∨
          runStatus [JobOp.runnerStart, JobOp.runnerFinish exitCode gotResult resultIsError] =
            Status.failed) := by
  refine ⟨?_, ?_, ?_, ?_⟩
  · intro hne
    cases op with
    | runnerStart => exact Or.inl ⟨rfl, rfl⟩
    | cancelRequest => exact Or.inr (Or.inl ⟨rfl, rfl⟩)
    | runnerFinish exitCode gotResult resultIsError =>
      refine Or.inr (Or.inr ⟨?_, ⟨exitCode, gotResult, resultIsError, rfl⟩, ?_⟩)
      · intro hs
        exact hne (by simp [stepStatus, hs])
      · simp only [stepStatus]
        split_ifs with h1 h2
        · exact absurd (by simp [stepStatus, h1]) hne
        · exact Or.inl rfl
        · exact Or.inr rfl
  · intro exitCode gotResult resultIsError
    simp [stepStatus]
  · simp [runStatus, stepStatus]
  · intro exitCode gotResult resultIsError
    simp only [runStatus, List.foldl, stepStatus]
    by_cases h : exitCode = 0 ∨ (gotResult ∧ resultIsError = false)
    · rw [if_neg (by decide), if_pos h]
      exact Or.inl rfl
    · rw [if_neg (by decide), if_neg h]
      exact Or.inr rfl

/-- Witness for the amended C2 at a concrete state and operation: a
cancellation request on a `completed` job is a status change of the
allowed cancellation form. -/
theorem claim_C2_amended_status_transitions_witness :
    (JobOp.cancelRequest = JobOp.runnerStart ∧
      stepStatus Status.completed JobOp.cancelRequest = Status.running) ∨
    (JobOp.cancelRequest = JobOp.cancelRequest ∧
      stepStatus Status.completed JobOp.cancelRequest = Status.cancelled) ∨
    (Status.completed ≠ Status.cancelled ∧
      (∃ exitCode gotResult resultIsError,
        JobOp.cancelRequest = JobOp.runnerFinish exitCode gotResult resultIsError) ∧
      (stepStatus Status.completed JobOp.cancelRequest = Status.completed ∨
        stepStatus Status.completed JobOp.cancelRequest = Status.failed)) :=
  (claim_C2_amended_status_transitions Status.completed JobOp.cancelRequest).1
    (by simp [stepStatus])

/-- **C9.**  The filtered environment contains no `CLAUDE`-prefixed key
and no raw `MAX_API_KEY` entry, preserves every other (non-credential)
entry, and — when a credential resolves (`MAX_API_KEY` value when
non-empty, else the `ANTHROPIC_API_KEY` value) — ends with exactly one
credential entry `ANTHROPIC_API_KEY=v` carrying the resolved value; when
both credential sources are empty no credential entry is present. -/
theorem claim_C9_filteredEnv (env : List (String × String)) :
    (∀ kv ∈ filteredEnv env, goHasPrefix "CLAUDE" kv.1 = false) ∧
    (∀ kv ∈ filteredEnv env, kv.1 ≠ "MAX_API_KEY") ∧
    (∀ kv ∈ env, goHasPrefix "CLAUDE" kv.1 = false → kv.1 ≠ "MAX_API_KEY" →
      kv.1 ≠ "ANTHROPIC_API_KEY" → kv ∈ filteredEnv env) ∧
    (resolvedAPIKey env ≠ "" →
      (filteredEnv env).getLast? = some ("ANTHROPIC_API_KEY", resolvedAPIKey env) ∧
      ((filteredEnv env).filter (fun kv => kv.1 = "ANTHROPIC_API_KEY")).length = 1) ∧
    (resolvedAPIKey env = "" → ∀ kv ∈ filteredEnv env, kv.1 ≠ "ANTHROPIC_API_KEY") := by
  have hbase : ∀ kv ∈ env.filter (fun kv =>
      !(goHasPrefix "CLAUDE" kv.1) && kv.1 ≠ "MAX_API_KEY" && kv.1 ≠ "ANTHROPIC_API_KEY"),
      goHasPrefix "CLAUDE" kv.1 = false ∧ kv.1 ≠ "MAX_API_KEY" ∧ kv.1 ≠ "ANTHROPIC_API_KEY" := by
    intro kv hkv
    have := List.of_mem_filter hkv
    simp only [Bool.and_eq_true, Bool.not_eq_true', decide_eq_true_eq] at this
    exact ⟨this.1.1, this.1.2, this.2⟩
  refine ⟨?_, ?_, ?_, ?_, ?_⟩
  · intro kv hkv
    unfold filteredEnv at hkv
    dsimp only at hkv
    split_ifs at hkv with hk
    · rcases List.mem_append.mp hkv with h | h
      · exact (hbase kv h).1
      · simp only [List.mem_singleton] at h
        subst h
        exact (by decide : goHasPrefix "CLAUDE" "ANTHROPIC_API_KEY" = false)
    · exact (hbase kv hkv).1
  · intro kv hkv
    unfold filteredEnv at hkv
    dsimp only at hkv
    split_ifs at hkv with hk
    · rcases List.mem_append.mp hkv with h | h
      · exact (hbase kv h).2.1
      · simp only [List.mem_singleton] at h
        subst h
        exact (by decide : ("ANTHROPIC_API_KEY" : String) ≠ "MAX_API_KEY")
    · exact (hbase kv hkv).2.1
  · intro kv hkv h1 h2 h3
    have hmem : kv ∈ env.filter (fun kv =>
        !(goHasPrefix "CLAUDE" kv.1) && kv.1 ≠ "MAX_API_KEY" && kv.1 ≠ "ANTHROPIC_API_KEY") := by
      refine List.mem_filter.mpr ⟨hkv, ?_⟩
      simp [h1, h2, h3]
    unfold filteredEnv
    dsimp only
    split_ifs with hk
    · exact List.mem_append_left _ hmem
    · exact hmem
  · intro hk
    unfold filteredEnv
    dsimp only
    rw [if_pos hk]
    refine ⟨List.getLast?_concat _, ?_⟩
    rw [List.filter_append]
    have hnil : (env.filter (fun kv =>
        !(goHasPrefix "CLAUDE" kv.1) && kv.1 ≠ "MAX_API_KEY" && kv.1 ≠ "ANTHROPIC_API_KEY")).filter
        (fun kv => kv.1 = "ANTHROPIC_API_KEY") = [] := by
      rw [List.filter_eq_nil]
      intro kv hkv
      simp [(hbase kv hkv).2.2]
    rw [hnil]
    simp
  · intro hk kv hkv
    unfold filteredEnv at hkv
    dsimp only at hkv
    rw [if_neg (by simp [hk])] at hkv
    exact (hbase kv hkv).2.2

/-- Witness for C9 at a concrete environment with a `CLAUDE`-prefixed
variable, both credential sources and one ordinary variable. -/
theorem claim_C9_filteredEnv_witness :
    ("PATH", "/usr/bin") ∈ filteredEnv
      [("CLAUDE_CONFIG", "x"), ("MAX_API_KEY", "sk-max"),
       ("ANTHROPIC_API_KEY", "sk-orig"), ("PATH", "/usr/bin")] ∧
    (filteredEnv [("CLAUDE_CONFIG", "x"), ("MAX_API_KEY", "sk-max"),
       ("ANTHROPIC_API_KEY", "sk-orig"), ("PATH", "/usr/bin")]).getLast? =
      some ("ANTHROPIC_API_KEY",
        resolvedAPIKey [("CLAUDE_CONFIG", "x"), ("MAX_API_KEY", "sk-max"),
          ("ANTHROPIC_API_KEY", "sk-orig"), ("PATH", "/usr/bin")]) := by
  refine ⟨(claim_C9_filteredEnv _).2.2.1 ("PATH", "/usr/bin") (by decide) (by decide)
      (by decide) (by decide),
    ((claim_C9_filteredEnv _).2.2.2.1 (by decide)).1⟩

/-! ## Runner finalization (C1, C10) -/

/-- The error flag of the most recent `result` event in a stream, `none`
when no `result` event occurred.  `scanResults` computes exactly this
(plus the occurred-at-all bit). -/
def lastResultIsError? (evts : List ParsedEvent) : Option Bool :=
  ((evts.filter (fun e => e.type = EventType.result)).getLast?).map (fun e => e.isError)

lemma scanResults_append_singleton (evts : List ParsedEvent) (e : ParsedEvent) :
    scanResults (evts ++ [e]) =
      if e.type = EventType.result then (true, e.isError) else scanResults evts := by
  simp [scanResults, List.foldl_append]

lemma lastResultIsError?_append_singleton (evts : List ParsedEvent) (e : ParsedEvent) :
    lastResultIsError? (evts ++ [e]) =
      if e.type = EventType.result then some e.isError else lastResultIsError? evts := by
  unfold lastResultIsError?
  rw [List.filter_append]
  split_ifs with h
  · simp [h]
  · simp [h]

/-- `scanResults` computes the occurred-bit and the error flag of the most
recent `result` event. -/
lemma scanResults_eq_lastResult (evts : List ParsedEvent) :
    scanResults evts =
      (match lastResultIsError? evts with
       | none => (false, false)
       | some b => (true, b)) := by
  induction evts using List.reverseRecOn with
  | nil => simp [scanResults, lastResultIsError?]
  | append_singleton evts e ih =>
    rw [scanResults_append_singleton, lastResultIsError?_append_singleton]
    split_ifs with h
    · rfl
    · exact ih

/-- **C1 (counterexample).**  The claim says the final status is
`completed` iff the exit code is zero **or a result event with error flag
false was observed during the run**.  The code instead uses the error
flag of the *last* result event: on a stream containing a successful
result event followed by an error result event, with exit code 2 and a
non-cancelled job, a result event with error flag false was observed yet
the job is marked `failed`. -/
theorem claim_C1_counterexample :
    (∃ e ∈ (parseLines
        [LineInput.object [("type", JVal.str "result"), ("is_error", JVal.bool false)],
         LineInput.object [("type", JVal.str "result"), ("is_error", JVal.bool true)]] 0).1,
      e.type = EventType.result ∧ e.isError = false) ∧
    (runAfterStart { status := Status.running } ∅
        [LineInput.object [("type", JVal.str "result"), ("is_error", JVal.bool false)],
         LineInput.object [("type", JVal.str "result"), ("is_error", JVal.bool true)]]
        2 "" [] []).1.status = Status.failed ∧
    Status.failed ≠ Status.completed := by
  refine ⟨?_, ?_, by decide⟩
  · have hlen : 0 < (parseLines
        [LineInput.object [("type", JVal.str "result"), ("is_error", JVal.bool false)],
         LineInput.object [("type", JVal.str "result"), ("is_error", JVal.bool true)]] 0).1.length := by
      decide
    exact ⟨_, List.get_mem _ 0 hlen, rfl, rfl⟩
  · rfl

/-- **C1 (amended).**  For every run in which the job's status is not
`cancelled` when the subprocess exits, the final status is `completed`
iff the exit code is zero **or the most recent `result` event observed
during the run had its error flag false**; in every other such run the
final status is `failed` and the error message is the trimmed captured
stderr, or a generic message naming the exit code when stderr trims to
empty. -/
theorem claim_C1_amended_final_status (j : JobState) (claimed : Finset String)
    (inputs : List LineInput) (exitCode : Int) (stderr : String)
    (pre post : List (String × Nat)) (hnc : j.status ≠ Status.cancelled) :
    ((runAfterStart j claimed inputs exitCode stderr pre post).1.status = Status.completed ↔
      (exitCode = 0 ∨ lastResultIsError? (parseLines inputs 0).1 = some false)) ∧
    ((runAfterStart j claimed inputs exitCode stderr pre post).1.status ≠ Status.completed →
      (runAfterStart j claimed inputs exitCode stderr pre post).1.status = Status.failed ∧
      (runAfterStart j claimed inputs exitCode stderr pre post).1.errMsg =
        (if goTrimSpace stderr = "" then s!"subprocess exited with code {exitCode}"
         else goTrimSpace stderr)) := by
  have hscan := scanResults_eq_lastResult (parseLines inputs 0).1
  have hcond : (exitCode = 0 ∨ ((scanResults (parseLines inputs 0).1).1 = true ∧
      (scanResults (parseLines inputs 0).1).2 = false)) ↔
      (exitCode = 0 ∨ lastResultIsError? (parseLines inputs 0).1 = some false) := by
    rw [hscan]
    rcases hlast : lastResultIsError? (parseLines inputs 0).1 with _ | b
    · simp
    · simp
  unfold runAfterStart runFinalize
  dsimp only
  rw [if_neg (show ¬j.status = Status.cancelled from hnc)]
  by_cases hok : exitCode = 0 ∨ ((scanResults (parseLines inputs 0).1).1 = true ∧
      (scanResults (parseLines inputs 0).1).2 = false)
  · rw [if_pos hok]
    refine ⟨?_, fun hne => absurd rfl hne⟩
    simpa using hcond.mp hok
  · rw [if_neg hok]
    refine ⟨⟨fun hco => Status.noConfusion hco,
      fun hor => absurd (hcond.mpr hor) hok⟩, fun _ => ⟨rfl, rfl⟩⟩

/-- Witness for the amended C1: exit code 2 with a single successful
result event yields `completed` (the spec's own override example), and
exit code 2 with no events yields `failed` with the generic message. -/
theorem claim_C1_amended_final_status_witness :
    (runAfterStart { status := Status.running } ∅
        [LineInput.object [("type", JVal.str "result"), ("result", JVal.str "ok"),
          ("is_error", JVal.bool false)]] 2 "" [] []).1.status = Status.completed ∧
    (runAfterStart { status := Status.running } ∅ [] 2 " " [] []).1.status = Status.failed ∧
    (runAfterStart { status := Status.running } ∅ [] 2 " " [] []).1.errMsg =
      "subprocess exited with code 2" := by
  refine ⟨?_, ?_, ?_⟩
  · exact (claim_C1_amended_final_status { status := Status.running } ∅
      [LineInput.object [("type", JVal.str "result"), ("result", JVal.str "ok"),
        ("is_error", JVal.bool false)]] 2 "" [] [] (by decide)).1.mpr (Or.inr (by rfl))
  · have h := (claim_C1_amended_final_status { status := Status.running } ∅ [] 2 " " [] []
      (by decide)).2 (fun hco => by
        rcases (claim_C1_amended_final_status { status := Status.running } ∅ [] 2 " " [] []
          (by decide)).1.mp hco with h0 | h0
        · exact absurd h0 (by decide)
        · exact absurd h0 (by decide))
    exact h.1
  · have h := (claim_C1_amended_final_status { status := Status.running } ∅ [] 2 " " [] []
      (by decide)).2 (fun hco => by
        rcases (claim_C1_amended_final_status { status := Status.running } ∅ [] 2 " " [] []
          (by decide)).1.mp hco with h0 | h0
        · exact absurd h0 (by decide)
        · exact absurd h0 (by decide))
    rw [h.2]
    rfl

/-- **C10.**  When the job's status is `cancelled` at the moment the
subprocess exit is observed, the Runner's post-exit phase returns with
the job record and the directory-claim ledger completely untouched: no
status change, no error message, no output-directory detection or claim. -/
theorem claim_C10_cancelled_frame (j : JobState) (claimed : Finset String)
    (exitCode : Int) (gotResult resultIsError : Bool) (stderr : String)
    (pre post : List (String × Nat)) (hc : j.status = Status.cancelled) :
    runFinalize j claimed exitCode gotResult resultIsError stderr pre post = (j, claimed) := by
  unfold runFinalize
  rw [if_pos hc]

/-- Witness for C10: a cancelled job with a fresh unclaimed output
directory present in the post-run snapshot is left untouched — no claim
is recorded and no field changes. -/
theorem claim_C10_cancelled_frame_witness :
    runFinalize { status := Status.cancelled } ∅ 1 false false "boom" []
      [("research-new", 9)] = ({ status := Status.cancelled }, ∅) :=
  claim_C10_cancelled_frame { status := Status.cancelled } ∅ 1 false false "boom" []
    [("research-new", 9)] rfl

/-! ## Output-directory detection (C4) -/

/-- The claim loop of `detectNewOutputDir` claims exactly the first
candidate, in list order, whose path is not yet claimed; when every
candidate is claimed (or there are none) it returns `""` and leaves the
ledger unchanged. -/
lemma claimFirst_spec (l : List (String × Nat)) (claimed : Finset String) :
    (match l.find? (fun kv => decide (kv.1 ∉ claimed)) with
     | some kv => claimFirst l claimed = (kv.1, insert kv.1 claimed)
     | none => claimFirst l claimed = ("", claimed)) := by
  induction l with
  | nil => simp [claimFirst]
  | cons kv rest ih =>
    by_cases h : kv.1 ∈ claimed
    · have hfind : (kv :: rest).find? (fun kv => decide (kv.1 ∉ claimed)) =
        rest.find? (fun kv => decide (kv.1 ∉ claimed)) := by
        rw [List.find?_cons_of_neg]
        simp [h]
      rw [hfind]
      have hcf : claimFirst (kv :: rest) claimed = claimFirst rest claimed := by
        simp [claimFirst, claimDir, h]
      rw [hcf]
      exact ih
    · have hfind : (kv :: rest).find? (fun kv => decide (kv.1 ∉ claimed)) = some kv := by
        rw [List.find?_cons_of_pos]
        simp [h]
      rw [hfind]
      simp [claimFirst, claimDir, h]

/-- **C4.**  The Runner's output-directory detection considers exactly
the directories present in the post-run snapshot but absent from the
pre-run snapshot, orders them by modification time most recent first,
claims the first candidate whose claim succeeds, and sets it as the
job's output directory; when every candidate is already claimed (or
there are none), the result is empty, the ledger is unchanged, and the
job's output directory stays as it was. -/
theorem claim_C4_output_dir_detection (pre post : List (String × Nat)) (claimed : Finset String) :
    (∀ kv : String × Nat, kv ∈ newCandidates pre post ↔
      kv ∈ post ∧ lookupMtime pre kv.1 = none) ∧
    ((sortByMtimeDesc (newCandidates pre post)).Perm (newCandidates pre post) ∧
      ((sortByMtimeDesc (newCandidates pre post)).map Prod.snd).Sorted (· ≥ ·)) ∧
    (match (sortByMtimeDesc (newCandidates pre post)).find? (fun kv => decide (kv.1 ∉ claimed)) with
     | some kv => detectNewOutputDir pre post claimed = (kv.1, insert kv.1 claimed)
     | none => detectNewOutputDir pre post claimed = ("", claimed)) ∧
    (∀ (j : JobState) (exitCode : Int) (gotResult resultIsError : Bool) (stderr : String),
      j.status ≠ Status.cancelled →
      (runFinalize j claimed exitCode gotResult resultIsError stderr pre post).1.outputDir =
        (if (detectNewOutputDir pre post claimed).1 ≠ ""
         then (detectNewOutputDir pre post claimed).1
         else j.outputDir)) := by
  haveI hTot : IsTotal (String × Nat) (fun a b => b.2 ≤ a.2) := ⟨fun a b => le_total b.2 a.2⟩
  haveI hTrans : IsTrans (String × Nat) (fun a b => b.2 ≤ a.2) :=
    ⟨fun _ _ _ hab hbc => le_trans hbc hab⟩
  refine ⟨?_, ⟨?_, ?_⟩, ?_, ?_⟩
  · intro kv
    simp [newCandidates, List.mem_filter]
  · exact List.perm_insertionSort _ _
  · have hs := List.sorted_insertionSort (fun a b : String × Nat => b.2 ≤ a.2)
      (newCandidates pre post)
    exact List.Pairwise.map Prod.snd (fun a b hab => hab) hs
  · unfold detectNewOutputDir
    exact claimFirst_spec _ claimed
  · intro j exitCode gotResult resultIsError stderr hnc
    unfold runFinalize
    dsimp only
    rw [if_neg (show ¬j.status = Status.cancelled from hnc)]
    split_ifs <;> rfl

/-- Witness for C4 on the spec's example: of two new output-prefixed
directories the newer is claimed first; with the newer already claimed
the runner falls through to the older; with both claimed the result is
empty; and the finalize step records the claimed directory on the job. -/
theorem claim_C4_output_dir_detection_witness :
    detectNewOutputDir [("research-old", 1)]
      [("research-old", 1), ("research-a", 5), ("research-b", 9)] ∅ =
      ("research-b", insert "research-b" ∅) ∧
    (detectNewOutputDir [("research-old", 1)]
      [("research-old", 1), ("research-a", 5), ("research-b", 9)]
      (insert "research-b" ∅)).1 = "research-a" ∧
    (detectNewOutputDir [("research-old", 1)]
      [("research-old", 1), ("research-a", 5), ("research-b", 9)]
      (insert "research-a" (insert "research-b" ∅))).1 = "" ∧
    (runFinalize { status := Status.running } ∅ 0 false false "" [("research-old", 1)]
      [("research-old", 1), ("research-a", 5), ("research-b", 9)]).1.outputDir =
      "research-b" := by
  refine ⟨by rfl, by rfl, by rfl, ?_⟩
  have h := (claim_C4_output_dir_detection [("research-old", 1)]
    [("research-old", 1), ("research-a", 5), ("research-b", 9)] ∅).2.2.2
    { status := Status.running } 0 false false "" (by decide)
  rw [h]
  rfl

/-! ## Streaming delivery (C8) -/

/-- For a non-negative cursor, `EventsSince` is exactly the suffix from
the cursor position (empty when the cursor is past the end). -/
lemma eventsSince_of_nonneg (evs : List ParsedEvent) (c : Int) (h : 0 ≤ c) :
    eventsSince evs c = evs.drop c.toNat := by
  unfold eventsSince
  dsimp only
  rw [if_neg (by omega : ¬c < 0)]
  split_ifs with hl
  · exact (List.drop_eq_nil_of_le (by omega)).symm
  · rfl

/-- Forwarding a suffix of a log and then the corresponding suffix of any
append-only extension of that log yields the suffix of the extension:
the cursor discipline loses and duplicates nothing. -/
lemma drop_append_of_prefix {α : Type} {l₁ l₂ : List α} (n : Nat) (h : l₁ <+: l₂) :
    l₁.drop n ++ l₂.drop (n + (l₁.drop n).length) = l₂.drop n := by
  obtain ⟨t, rfl⟩ := h
  rw [List.length_drop, List.drop_append_eq_append_drop, List.drop_append_eq_append_drop]
  by_cases hn : n ≤ l₁.length
  · have h1 : n + (l₁.length - n) = l₁.length := by omega
    have h2 : n - l₁.length = 0 := by omega
    rw [h1, h2]
    simp
  · have h1 : l₁.length - n = 0 := by omega
    have h4 : l₁.drop n = [] := List.drop_eq_nil_of_le (by omega)
    rw [h1, Nat.add_zero, h4]
    simp

/-- One poll step of the delivery loop, with the sentinel/continuation
choice factored out. -/
lemma streamLoop_cons (s : Snapshot) (rest : List Snapshot) (cursor : Int) :
    streamLoop (s :: rest) cursor =
      (eventsSince s.events cursor).map Msg.event ++
        (if isTerminalStatus s.status then [Msg.done s.status s.outputDir]
         else streamLoop rest (cursor + (eventsSince s.events cursor).length)) := by
  simp only [streamLoop]
  split_ifs <;> rfl

/-- **C8.**  For every delivery loop over a job started at a non-negative
cursor, observing an append-only sequence of job snapshots: if some poll
observes a terminal status, the loop's entire output is the job's events
from the start cursor onward (in log order, no loss or duplication)
followed by exactly one final `done` sentinel carrying the first observed
terminal status and that snapshot's output directory — nothing follows
the sentinel; if no poll observes a terminal status (the contexts end the
loop), the output is just the forwarded events of the last poll's log,
with no sentinel. -/
theorem claim_C8_stream_delivery (snaps : List Snapshot) (c₀ : Int) (h0 : 0 ≤ c₀)
    (hchain : List.Chain' (fun a b => a.events <+: b.events) snaps) :
    (match snaps.find? (fun s => isTerminalStatus s.status) with
     | some s => streamLoop snaps c₀ =
         (s.events.drop c₀.toNat).map Msg.event ++ [Msg.done s.status s.outputDir]
     | none =>
       streamLoop snaps c₀ =
         (match snaps.getLast? with
          | some sl => (sl.events.drop c₀.toNat).map Msg.event
          | none => [])) := by
  haveI : IsTrans Snapshot (fun a b => a.events <+: b.events) :=
    ⟨fun _ _ _ h1 h2 => h1.trans h2⟩
  rw [List.chain'_iff_pairwise] at hchain
  revert h0 hchain
  induction snaps generalizing c₀ with
  | nil =>
    intro _ _
    simp [streamLoop]
  | cons s rest ih =>
    intro h0 hchain
    obtain ⟨hhead, htail⟩ := List.pairwise_cons.mp hchain
    by_cases ht : isTerminalStatus s.status
    · rw [List.find?_cons_of_pos _ (by simpa using ht)]
      rw [streamLoop_cons, eventsSince_of_nonneg _ _ h0, if_pos ht]
    · rw [List.find?_cons_of_neg _ (by simpa using ht)]
      have harith : (c₀ + ((s.events.drop c₀.toNat).length : Int)).toNat =
          c₀.toNat + (s.events.drop c₀.toNat).length := by omega
      have ihh := ih (c₀ + ((s.events.drop c₀.toNat).length : Int)) (by omega) htail
      rcases hrf : rest.find? (fun s => isTerminalStatus s.status) with _ | t
      · rw [hrf] at ihh
        cases rest with
        | nil =>
          rw [streamLoop_cons, eventsSince_of_nonneg _ _ h0, if_neg ht]
          simp [streamLoop]
        | cons r rrest =>
          rw [List.getLast?_cons_cons]
          rcases hsl : (r :: rrest).getLast? with _ | sl
          · simp at hsl
          · rw [hsl] at ihh
            have hpre : s.events <+: sl.events :=
              hhead sl (List.mem_of_mem_getLast? (by simp [hsl]))
            rw [streamLoop_cons, eventsSince_of_nonneg _ _ h0, if_neg ht, ihh, harith,
              ← List.map_append, drop_append_of_prefix c₀.toNat hpre, hrf]
      · rw [hrf] at ihh
        have hpre : s.events <+: t.events := hhead t (List.mem_of_find?_eq_some hrf)
        rw [streamLoop_cons, eventsSince_of_nonneg _ _ h0, if_neg ht, ihh, harith,
          ← List.append_assoc, ← List.map_append, drop_append_of_prefix c₀.toNat hpre, hrf]

/-- Witness for C8: two polls over an append-only log, the second
observing a terminal `completed` status, deliver both events in order and
end with the single `done` sentinel carrying the status and output
directory. -/
theorem claim_C8_stream_delivery_witness :
    streamLoop
      [{ events := [{ index := 0 }], status := Status.running, outputDir := "" },
       { events := [{ index := 0 }, { index := 1 }], status := Status.completed,
         outputDir := "research-out" }] 0 =
      [Msg.event { index := 0 }, Msg.event { index := 1 },
       Msg.done Status.completed "research-out"] := by
  have h := claim_C8_stream_delivery
    [{ events := [{ index := 0 }], status := Status.running, outputDir := "" },
     { events := [{ index := 0 }, { index := 1 }], status := Status.completed,
       outputDir := "research-out" }] 0 (by norm_num)
    (by
      refine List.chain'_cons.mpr ⟨⟨[{ index := 1 }], rfl⟩, ?_⟩
      exact List.chain'_singleton _)
  simpa using h

end ResearchDashboard
